import Mathlib

/-!
Verification of the PS→RFP worksheet sanitizer (`ps2rfp_COM.py`, with the
value-freeze stage of `ps2rfp.py`).

Shallow embedding: cell text is `List Char`; a sheet is a list of cell
entries (1-based row/column plus text) together with its floating shapes;
a workbook is a list of sheets.  Case-insensitive substring search models
the spreadsheet engine's `Find`/`Replace` with `LookAt=xlPart,
MatchCase=False`.  The embedding assumes file names contain no newline
character (Python's `.` in the filename regexes does not match newlines;
none of the inputs considered here contain one).
-/

/-- Model of Python `str.lower` restricted to ASCII letters (the only
characters the scripts' fixed tokens use). -/
def lowerChar (c : Char) : Char :=
  if 'A' ≤ c ∧ c ≤ 'Z' then Char.ofNat (c.toNat + 32) else c

/-- Lowercase an entire character list (Python `str.lower`). -/
def lowerStr (l : List Char) : List Char := l.map lowerChar

/-- Case-insensitive "starts with" on character lists. -/
def startsWithCI : List Char → List Char → Bool
  | [], _ => true
  | _ :: _, [] => false
  | n :: ns, h :: hs => (lowerChar h == lowerChar n) && startsWithCI ns hs

/-- Case-insensitive substring containment: the engine's `Find` with
`LookAt=xlPart, MatchCase=False` hits a cell iff this returns `true`. -/
def containsCI (needle : List Char) : List Char → Bool
  | [] => needle.isEmpty
  | h :: hs => startsWithCI needle (h :: hs) || containsCI needle hs

/-- The marker token "DDP". -/
def ddpTok : List Char := ['D', 'D', 'P']

/-- The replacement token "FOB". -/
def fobTok : List Char := ['F', 'O', 'B']

/-- The second marker "USA". -/
def usaTok : List Char := ['U', 'S', 'A']

/-- The token "RFP-" used by the filename guard `"RFP-" not in name.upper()`. -/
def rfpDashTok : List Char := ['R', 'F', 'P', '-']

/-- The canonical replacement string "FOB, BUSAN PORT". -/
def fobUsaCanonical : List Char := ("FOB, BUSAN PORT").data

/-- Test whether three characters spell "DDP" case-insensitively. -/
def isDdpAt (a b c : Char) : Bool :=
  (lowerChar a == 'd') && (lowerChar b == 'd') && (lowerChar c == 'p')

/-- Left-to-right, non-overlapping, case-insensitive substring replacement
of "DDP" by "FOB", as `Cells.Replace(What="DDP", Replacement="FOB",
LookAt=XL_PART, MatchCase=False)` performs on one cell's text. -/
def replaceDdpFob : List Char → List Char
  | a :: b :: c :: rest =>
    if isDdpAt a b c then 'F' :: 'O' :: 'B' :: replaceDdpFob rest
    else a :: replaceDdpFob (b :: c :: rest)
  | l => l

/-- ASCII decimal digit test (the regex class `\d` on these file names). -/
def isDigitChar (c : Char) : Bool := decide ('0' ≤ c) && decide (c ≤ '9')

/-- ASCII whitespace test (the regex class `\s` / Python `str.strip`). -/
def isSpaceChar (c : Char) : Bool :=
  c == ' ' || c == '\t' || c == '\n' || c == '\r' || c == '\x0b' || c == '\x0c'

/-- Python `str.strip()`: drop leading and trailing whitespace. -/
def stripChars (l : List Char) : List Char :=
  ((l.dropWhile isSpaceChar).reverse.dropWhile isSpaceChar).reverse

/-- Whether `re.match(r"^(\d{6})\sPS-(.*)$", name, re.IGNORECASE)` succeeds:
six leading digits, one whitespace character, then "PS-" case-insensitively. -/
def matches_ps_date_pattern (name : List Char) : Bool :=
  decide ((name.take 6).length = 6) && (name.take 6).all isDigitChar &&
    (match name.drop 6 with
     | w :: p :: s :: dash :: _ =>
       isSpaceChar w && (lowerChar p == 'p') && (lowerChar s == 's') && (dash == '-')
     | _ => false)

/-- Whether `re.match(r"^(\d{6})(\s?)(.*)$", name)` succeeds, i.e. the name
begins with six digits. -/
def leading_six_digits (name : List Char) : Bool :=
  decide ((name.take 6).length = 6) && (name.take 6).all isDigitChar

/-- The regex group `(\s?)`: greedily drop one optional whitespace char. -/
def strip_opt_space : List Char → List Char
  | [] => []
  | w :: t => if isSpaceChar w then t else w :: t

/-- Python `pathlib`'s stem/suffix split: the suffix starts at the last dot
provided that dot is neither the first nor the last character; stem is the
rest.  In every case `stem ++ suffix = name`. -/
def split_stem_suffix (name : List Char) : List Char × List Char :=
  match name.reverse.findIdx? (fun c => c == '.') with
  | none => (name, [])
  | some j =>
    let i := name.length - 1 - j
    if 0 < i ∧ i < name.length - 1 then (name.take i, name.drop i) else (name, [])

/-- `rename_to_rfp` from `ps2rfp_COM.py` (identical in `ps2rfp.py`): replace
a leading "yymmdd PS-" with "yymmdd RFP-"; else if the name starts with six
digits and does not already contain "RFP-" (case-insensitively), insert
" RFP-" after the date (consuming one optional whitespace); else append
"_RFP" before the extension. -/
def rename_to_rfp (name : List Char) : List Char :=
  if matches_ps_date_pattern name then
    name.take 6 ++ (" RFP-").data ++ name.drop 10
  else if leading_six_digits name && !(containsCI rfpDashTok name) then
    name.take 6 ++ (" RFP-").data ++ strip_opt_space (name.drop 6)
  else
    (split_stem_suffix name).1 ++ ("_RFP").data ++ (split_stem_suffix name).2

/-- One cell of a worksheet's used range: 1-based row and column plus the
cell's text.  A cell with empty text models a cleared cell. -/
structure CellEntry where
  row : Nat
  col : Nat
  text : List Char
deriving DecidableEq

/-- A floating shape: the six properties the script snapshots. -/
structure Shape where
  name : List Char
  left : Int
  top : Int
  width : Int
  height : Int
  locked : Bool
deriving DecidableEq

/-- A worksheet: its name, its used-range cells, and its shapes. -/
structure Worksheet where
  name : List Char
  cells : List CellEntry
  shapes : List Shape
deriving DecidableEq

/-- The fixed name of the deleted reference sheet, lowercased. -/
def coverTok : List Char := ['c', 'o', 'v', 'e', 'r']

/-- The fixed name of the target sheet, lowercased. -/
def psTok : List Char := ['p', 's']

/-- `delete_cover_if_present`: delete the first sheet whose lowercased name
is "cover"; no-op when absent. -/
def delete_cover_if_present (wb : List Worksheet) : List Worksheet :=
  List.eraseP (fun ws => lowerStr ws.name == coverTok) wb

/-- `get_ps_sheet`: index of the first sheet whose lowercased name is "ps". -/
def get_ps_sheet (wb : List Worksheet) : Option Nat :=
  wb.findIdx? (fun ws => lowerStr ws.name == psTok)

/-- `convert_all_used_ranges_to_values`: `used.Value = used.Value` writes
each sheet's cached values back over itself — the identity on the value
grid of this model (formulas are not modelled separately here; the
openpyxl variant's per-cell freeze is modelled below as `freeze_to_values`). -/
def convert_all_used_ranges_to_values (wb : List Worksheet) : List Worksheet := wb

/-- Helper for `snapshot_and_move_shapes_to_safe_area`: walk the shape list
with the running `y_cursor`, returning the snapshot list and the moved
shapes (left := safe area's left, top := cursor, unlocked), advancing the
cursor by height + 10. -/
def snapshot_and_move_aux (safeLeft : Int) : Int → List Shape → List Shape × List Shape
  | _, [] => ([], [])
  | yCursor, s :: rest =>
    let moved : Shape := { s with locked := false, left := safeLeft, top := yCursor }
    let tail := snapshot_and_move_aux safeLeft (yCursor + s.height + 10) rest
    (s :: tail.1, moved :: tail.2)

/-- `snapshot_and_move_shapes_to_safe_area`: snapshot every shape's name,
position, size and lock state, then stack all shapes in the safe area. -/
def snapshot_and_move_shapes_to_safe_area (safeLeft safeTop : Int) (shapes : List Shape) :
    List Shape × List Shape :=
  snapshot_and_move_aux safeLeft safeTop shapes

/-- The Python dict `{s["Name"]: s for s in shapes_info}`: on duplicate
names the last entry wins, so look the name up from the rear. -/
def lookup_by_name_last (info : List Shape) (n : List Char) : Option Shape :=
  info.reverse.find? (fun m => m.name == n)

/-- `restore_shapes`: for every current shape whose name is in the snapshot
dict, restore position, size and lock state from the snapshot. -/
def restore_shapes (info : List Shape) (shapes : List Shape) : List Shape :=
  shapes.map (fun s =>
    match lookup_by_name_last info s.name with
    | some m =>
      { s with left := m.left, top := m.top, width := m.width, height := m.height,
               locked := m.locked }
    | none => s)

/-- The stage-6 shape round trip: snapshot-and-relocate followed by restore
(the bulk cell clear in between does not touch shapes). -/
def shape_stage_round_trip (safeLeft safeTop : Int) (shapes : List Shape) : List Shape :=
  let snap := snapshot_and_move_shapes_to_safe_area safeLeft safeTop shapes
  restore_shapes snap.1 snap.2

/-- Whether a cell contains the marker token "DDP" case-insensitively. -/
def cell_matches_ddp (e : CellEntry) : Bool := containsCI ddpTok e.text

/-- `find_earliest_clear_start_col_for_ps`: over all cells of the PS sheet
containing "DDP" (substring, case-insensitive), the minimum of
(match column + 3); `none` when there is no match. -/
def find_earliest_clear_start_col_for_ps (cells : List CellEntry) : Option Nat :=
  match cells.filter cell_matches_ddp with
  | [] => none
  | m :: ms => some (ms.foldl (fun acc e => min acc (e.col + 3)) (m.col + 3))

/-- The start-column defaulting of `clear_ps_columns_from_dynamic_start`:
`None` or a value < 1 falls back to column L = 12. -/
def clear_start_col (o : Option Nat) : Nat :=
  match o with
  | none => 12
  | some i => if i < 1 then 12 else i

/-- Clear text of every cell whose column is ≥ `startCol` (the
`Range("<label>:XFD").Clear()` call). -/
def clear_cells_from_col (startCol : Nat) (cells : List CellEntry) : List CellEntry :=
  cells.map (fun e => if startCol ≤ e.col then { e with text := [] } else e)

/-- `clear_ps_columns_from_dynamic_start` applied to the PS sheet's cells:
default to column 12, no-op past column XFD = 16384. -/
def clear_ps_columns_from_dynamic_start (o : Option Nat) (cells : List CellEntry) :
    List CellEntry :=
  if 16384 < clear_start_col o then cells
  else clear_cells_from_col (clear_start_col o) cells

/-- `column_index_to_label`: Python's
`while idx > 0: idx, rem = divmod(idx - 1, 26); label = chr(65 + rem) + label`
written as recursion on the quotient. -/
def column_index_to_label (idx : Nat) : List Char :=
  if idx = 0 then []
  else column_index_to_label ((idx - 1) / 26) ++ [Char.ofNat (65 + (idx - 1) % 26)]
termination_by idx
decreasing_by
  exact Nat.lt_of_le_of_lt (Nat.div_le_self _ _) (by omega)

/-- The standard interpretation of a bijective base-26 column label, the
left inverse claimed for `column_index_to_label`. -/
def label_to_index (l : List Char) : Nat :=
  l.foldl (fun a c => a * 26 + (c.toNat - 64)) 0

/-- Step 2 of the stage-4 text pass on one cell: a cell containing both
"FOB" and "USA" (case-insensitive) is overwritten with the canonical
string, all other cells are untouched. -/
def normalize_fob_usa_cell (t : List Char) : List Char :=
  if containsCI fobTok t && containsCI usaTok t then fobUsaCanonical else t

/-- Apply a text transformation to every cell of a sheet. -/
def map_cells (f : List Char → List Char) (ws : Worksheet) : Worksheet :=
  { ws with cells := ws.cells.map (fun e => { e with text := f e.text }) }

/-- Step 1 of `replace_ddp_fob_and_normalize_fob_usa_all_sheets`: the
global DDP→FOB substring replacement on every sheet. -/
def replace_ddp_fob_all_sheets (wb : List Worksheet) : List Worksheet :=
  wb.map (map_cells replaceDdpFob)

/-- Step 2 of `replace_ddp_fob_and_normalize_fob_usa_all_sheets`: normalize
every cell that now contains both "FOB" and "USA". -/
def normalize_fob_usa_all_sheets (wb : List Worksheet) : List Worksheet :=
  wb.map (map_cells normalize_fob_usa_cell)

/-- `replace_ddp_fob_and_normalize_fob_usa_all_sheets`: step 1 on all
sheets, then step 2 on all sheets. -/
def replace_ddp_fob_and_normalize_fob_usa_all_sheets (wb : List Worksheet) :
    List Worksheet :=
  normalize_fob_usa_all_sheets (replace_ddp_fob_all_sheets wb)

/-- The net stage-4 effect on a single cell's text. -/
def stage4_cell (t : List Char) : List Char := normalize_fob_usa_cell (replaceDdpFob t)

/-- Whether a cell contains `needle` case-insensitively. -/
def cell_matches (needle : List Char) (e : CellEntry) : Bool := containsCI needle e.text

/-- The best-so-far update of `find_uppermost_match_across_workbook`: a new
hit replaces the current best only when it is strictly higher, or on the
same row strictly further left. -/
def update_best (b : Option (Nat × Nat × Nat)) (i r c : Nat) : Option (Nat × Nat × Nat) :=
  match b with
  | none => some (i, r, c)
  | some (bi, br, bc) =>
    if r < br ∨ (r = br ∧ c < bc) then some (i, r, c) else some (bi, br, bc)

/-- Walk one sheet's hits, folding `update_best` over its matching cells. -/
def scan_sheet_for_best (needle : List Char) (i : Nat) (cells : List CellEntry)
    (b : Option (Nat × Nat × Nat)) : Option (Nat × Nat × Nat) :=
  cells.foldl (fun acc e => if cell_matches needle e then update_best acc i e.row e.col else acc) b

/-- Fold the per-sheet scan over the workbook's sheets, numbering the
sheets in workbook order. -/
def find_uppermost_aux (needle : List Char) :
    List Worksheet → Nat → Option (Nat × Nat × Nat) → Option (Nat × Nat × Nat)
  | [], _, b => b
  | ws :: rest, k, b => find_uppermost_aux needle rest (k + 1) (scan_sheet_for_best needle k ws.cells b)

/-- `find_uppermost_match_across_workbook`: the upper-most (smallest row,
then smallest column, ties kept from the earliest sheet) cell containing
`needle`, as (sheet index, row, column); `none` when nothing matches. -/
def find_uppermost_match_across_workbook (wb : List Worksheet) (needle : List Char) :
    Option (Nat × Nat × Nat) :=
  find_uppermost_aux needle wb 0 none

/-- The match triples of one sheet, in cell order. -/
def sheet_match_triples (needle : List Char) (k : Nat) (cells : List CellEntry) :
    List (Nat × Nat × Nat) :=
  (cells.filter (cell_matches needle)).map (fun e => (k, e.row, e.col))

/-- All match triples of the workbook in scan order (sheet-major). -/
def wb_match_triples (needle : List Char) : List Worksheet → Nat → List (Nat × Nat × Nat)
  | [], _ => []
  | ws :: rest, k => sheet_match_triples needle k ws.cells ++ wb_match_triples needle rest (k + 1)

/-- `update_best` as a fold step over match triples. -/
def best_step (b : Option (Nat × Nat × Nat)) (x : Nat × Nat × Nat) : Option (Nat × Nat × Nat) :=
  update_best b x.1 x.2.1 x.2.2

/-- "There is a matching cell at sheet `j`, row `r`, column `c`". -/
def MatchAt (wb : List Worksheet) (needle : List Char) (j r c : Nat) : Prop :=
  ∃ ws, wb[j]? = some ws ∧ ∃ e ∈ ws.cells, cell_matches needle e = true ∧ e.row = r ∧ e.col = c

/-- Replace the sheet at position `i` by `f` of it; out-of-range is a no-op. -/
def modifySheet : List Worksheet → Nat → (Worksheet → Worksheet) → List Worksheet
  | [], _, _ => []
  | ws :: rest, 0, f => f ws :: rest
  | ws :: rest, n + 1, f => ws :: modifySheet rest n f

/-- The cells of sheet `i` (empty when out of range). -/
def cellsOfSheet (wb : List Worksheet) (i : Nat) : List CellEntry :=
  match wb[i]? with
  | some ws => ws.cells
  | none => []

/-- New behavior A: find the uppermost "FOB" across the workbook and clear
the cell directly below it (contents and formats; here: its text). -/
def stageA_clear_below_uppermost_fob (wb : List Worksheet) : List Worksheet :=
  match find_uppermost_match_across_workbook wb fobTok with
  | none => wb
  | some (i, r, c) =>
    modifySheet wb i (fun ws =>
      { ws with cells := ws.cells.map (fun e =>
          if e.row = r + 1 ∧ e.col = c then { e with text := [] } else e) })

/-- Text of the cell at (r, c), empty when the cell is absent. -/
def getCellText (cells : List CellEntry) (r c : Nat) : List Char :=
  match cells.find? (fun e => e.row == r && e.col == c) with
  | some e => e.text
  | none => []

/-- Strict row-major order on cell coordinates (`SearchOrder=xlByRows`). -/
def rowMajorLt (r c r2 c2 : Nat) : Bool := r < r2 || (r == r2 && c < c2)

/-- The row-major-first element of a cell list. -/
def min_row_major (l : List CellEntry) : Option CellEntry :=
  l.foldl (fun b e =>
    match b with
    | none => some e
    | some x => if rowMajorLt e.row e.col x.row x.col then some e else some x) none

/-- `used.Find(What=tx, After=anchor)`: the first matching cell strictly
after the anchor in row-major order, wrapping around the used range (so
with no later match the earliest match — possibly the anchor itself — is
returned). -/
def find_first_match_after (cells : List CellEntry) (tx : List Char) (ar ac : Nat) :
    Option CellEntry :=
  let ms := cells.filter (fun e => containsCI tx e.text)
  match min_row_major (ms.filter (fun e => rowMajorLt ar ac e.row e.col)) with
  | some e => some e
  | none => min_row_major ms

/-- Scan a list of (index, sheet) pairs for the first sheet containing a
match; return that sheet's first match in row-major order. -/
def scan_sheets_for_match (tx : List Char) : List (Nat × Worksheet) → Option (Nat × CellEntry)
  | [] => none
  | (j, ws) :: rest =>
    match min_row_major (ws.cells.filter (fun e => containsCI tx e.text)) with
    | some e => some (j, e)
    | none => scan_sheets_for_match tx rest

/-- `find_next_occurrence_after_anchor`: first try the anchor sheet after
the anchor cell (rejecting a hit at the anchor itself), then the sheets
after the anchor sheet in workbook order, then the sheets before it. -/
def find_next_occurrence_after_anchor (wb : List Worksheet) (tx : List Char)
    (psIdx ar ac : Nat) : Option (Nat × CellEntry) :=
  let sameSheet : Option (Nat × CellEntry) :=
    match wb[psIdx]? with
    | none => none
    | some psWs =>
      match find_first_match_after psWs.cells tx ar ac with
      | some e => if e.row == ar && e.col == ac then none else some (psIdx, e)
      | none => none
  match sameSheet with
  | some h => some h
  | none => scan_sheets_for_match tx (wb.enum.drop (psIdx + 1) ++ wb.enum.take psIdx)

/-- `found_ws.Cells(found_ws.Rows.Count, col).End(xlUp).Row`: the last row
with non-empty text in the given column (0 when the column is empty). -/
def last_used_row_in_col (cells : List CellEntry) (c : Nat) : Nat :=
  (cells.filter (fun e => e.col == c && !(e.text.isEmpty))).foldl (fun a e => max a e.row) 0

/-- What `Range(...).ClearContents()` would do: clear the text of the cells
of column `colIdx` between `startRow` and `lastRow` on sheet `i`. -/
def clear_column_contents (wb : List Worksheet) (i colIdx startRow lastRow : Nat) :
    List Worksheet :=
  modifySheet wb i (fun ws =>
    { ws with cells := ws.cells.map (fun e =>
        if e.col = colIdx ∧ startRow ≤ e.row ∧ e.row ≤ lastRow then { e with text := [] }
        else e) })

/-- New behaviors B/C/D of `main`: read PS!G4, find the next occurrence of
that text after the anchor, compute the clear range — and then perform no
clear: the source's final statement is `rng.ClearContents` with no call
parentheses, a bare COM method attribute access that never invokes the
method, so the workbook is returned unchanged on every path. -/
def stage5_clear_below_g4_match (wb : List Worksheet) (psIdx : Nat) : List Worksheet :=
  let textG4 := getCellText (cellsOfSheet wb psIdx) 4 7
  if (stripChars textG4).isEmpty then wb
  else
    match find_next_occurrence_after_anchor wb textG4 psIdx 4 7 with
    | none => wb
    | some (i, e) =>
      let startRow := e.row + 6
      let lastRow := last_used_row_in_col (cellsOfSheet wb i) e.col
      if startRow ≤ lastRow then
        -- `rng.ClearContents` is accessed but never called in the source,
        -- so the prepared range is not cleared
        wb
      else wb

/-- Stage 6 on the PS sheet: snapshot and relocate shapes, clear from the
dynamic start column, restore shapes. -/
def stage6_shape_preserving_clear (wb : List Worksheet) (psIdx : Nat) (dyn : Option Nat) :
    List Worksheet :=
  modifySheet wb psIdx (fun ws =>
    let snap := snapshot_and_move_shapes_to_safe_area 0 0 ws.shapes
    { ws with cells := clear_ps_columns_from_dynamic_start dyn ws.cells,
              shapes := restore_shapes snap.1 snap.2 })

/-- The externally observable effects of one run of `main`. -/
structure RunEffects where
  exitCode : Nat
  savedTo : List (List Char)
  closeSaveChanges : Bool
  ranShapeStage : Bool
deriving DecidableEq

/-- `main` of `ps2rfp_COM.py` as a function from the source file name and
the opened workbook to the run's effects and the final workbook state: the
output name is derived first, the COVER sheet is deleted, values are
frozen, the missing-PS check aborts with exit code 1 before anything is
saved, and otherwise the content stages run in order and the result is
saved (only) to the derived output name; the workbook handle is always
closed with `SaveChanges=False`. -/
def main_run (srcName : List Char) (wb0 : List Worksheet) : RunEffects × List Worksheet :=
  let out := rename_to_rfp srcName
  let wb1 := delete_cover_if_present wb0
  let wb2 := convert_all_used_ranges_to_values wb1
  match get_ps_sheet wb2 with
  | none =>
    ({ exitCode := 1, savedTo := [], closeSaveChanges := false, ranShapeStage := false }, wb2)
  | some psIdx =>
    let dyn := find_earliest_clear_start_col_for_ps (cellsOfSheet wb2 psIdx)
    let wb3 := replace_ddp_fob_and_normalize_fob_usa_all_sheets wb2
    let wb4 := stageA_clear_below_uppermost_fob wb3
    let wb5 := stage5_clear_below_g4_match wb4 psIdx
    let wb6 := stage6_shape_preserving_clear wb5 psIdx dyn
    ({ exitCode := 0, savedTo := [out], closeSaveChanges := false, ranShapeStage := true }, wb6)

/-- A cell of the openpyxl grid model used by `freeze_to_values`
(`ps2rfp.py`): the stored value (formula or literal), a formatting token,
and whether the cell is a non-top-left member of a merged region. -/
structure GridCell (α : Type) where
  value : α
  fmt : Nat
  mergedNonAnchor : Bool
deriving DecidableEq

/-- One iteration of the `freeze_to_values` double loop: skip merged
non-anchor cells, overwrite the value with the cached one when it exists,
otherwise leave the cell as is. -/
def freeze_cell_step {α : Type} (cached : Nat → Nat → Option α)
    (g : Nat → Nat → GridCell α) (p : Nat × Nat) : Nat → Nat → GridCell α :=
  let cell := g p.1 p.2
  if cell.mergedNonAnchor then g
  else
    match cached p.1 p.2 with
    | some v => fun r c => if r = p.1 ∧ c = p.2 then { cell with value := v } else g r c
    | none => g

/-- The coordinates `(r, c)` for `r in range(1, mr + 1)`, `c in
range(1, mc + 1)`, in loop order. -/
def freeze_coords (mr mc : Nat) : List (Nat × Nat) :=
  (List.range mr).flatMap (fun r => (List.range mc).map (fun c => (r + 1, c + 1)))

/-- `freeze_to_values` on one sheet: fold the per-cell step over the grid
rectangle. -/
def freeze_to_values {α : Type} (cached : Nat → Nat → Option α)
    (g : Nat → Nat → GridCell α) (mr mc : Nat) : Nat → Nat → GridCell α :=
  (freeze_coords mr mc).foldl (freeze_cell_step cached) g

/-- Concrete workbook for the C2 failing input: PS!G4 holds "ITEM", the
next occurrence of "ITEM" after G4 is B9, and column B is used down to
row 16, so a real `ClearContents()` would clear B15:B16. -/
def bugWorkbook : List Worksheet :=
  [{ name := ("PS").data,
     cells := [⟨4, 7, ("ITEM").data⟩, ⟨9, 2, ("ITEM").data⟩, ⟨16, 2, ("x").data⟩],
     shapes := [] }]

/-- Concrete one-cell workbook whose only cell reads "DDP USA": before the
stage-4 pass it contains the marker and "USA" but not "FOB". -/
def c3CexWb : List Worksheet :=
  [{ name := ("PS").data, cells := [⟨1, 1, ("DDP USA").data⟩], shapes := [] }]

/-- The sheet `c3CexWb`'s single sheet after the stage-4 pass. -/
def c3OutSheet : Worksheet :=
  { name := ("PS").data, cells := [⟨1, 1, fobUsaCanonical⟩], shapes := [] }

/-- Two shapes sharing the name "S" but with different positions. -/
def dupShapeA : Shape := { name := ['S'], left := 0, top := 0, width := 10, height := 10, locked := false }

/-- Second shape named "S", located elsewhere. -/
def dupShapeB : Shape := { name := ['S'], left := 100, top := 0, width := 10, height := 10, locked := true }

/-- Two distinctly named shapes, for the round-trip witness. -/
def shapeP : Shape := { name := ['P'], left := 250, top := 40, width := 30, height := 20, locked := true }

/-- Second distinctly named shape for the round-trip witness. -/
def shapeQ : Shape := { name := ['Q'], left := 300, top := 90, width := 15, height := 25, locked := false }

/-- Concrete 2×2 grid for the freeze witness: cell (2,2) is a merged
non-anchor cell, every other cell is plain. -/
def exGrid : Nat → Nat → GridCell Nat :=
  fun r c => { value := 10 * r + c, fmt := 7, mergedNonAnchor := decide (r = 2 ∧ c = 2) }

/-- Concrete cache for the freeze witness: only (1,1) and (2,2) have a
cached computed value. -/
def exCached : Nat → Nat → Option Nat :=
  fun r c => if r = 1 ∧ c = 1 then some 99 else if r = 2 ∧ c = 2 then some 50 else none

/-- A workbook holding just an empty sheet named "PS". -/
def psOnlyWorkbook : List Worksheet := [{ name := ("PS").data, cells := [], shapes := [] }]

/-- A workbook with no sheet named "PS" (any casing). -/
def noPsWorkbook : List Worksheet := [{ name := ("Data").data, cells := [], shapes := [] }]

/-- Concrete two-sheet workbook for the uppermost-match witness: the
needle "FOB" occurs at (sheet 0, row 3, col 2), (sheet 1, row 1, col 9)
and (sheet 1, row 1, col 5). -/
def c10Workbook : List Worksheet :=
  [{ name := ("A").data, cells := [⟨3, 2, ("xFOBy").data⟩], shapes := [] },
   { name := ("B").data, cells := [⟨1, 9, ("FOB").data⟩, ⟨1, 5, ("fob!").data⟩], shapes := [] }]

/-! ## Theorems -/

theorem startsWithCI_ddp_nil : startsWithCI ddpTok [] = false := rfl

theorem startsWithCI_ddp_one (x : Char) : startsWithCI ddpTok [x] = false := by
  simp [startsWithCI, ddpTok]

theorem startsWithCI_ddp_two (x y : Char) : startsWithCI ddpTok [x, y] = false := by
  simp [startsWithCI, ddpTok]

theorem replaceDdpFob_head (l : List Char) :
    (replaceDdpFob l).head? = l.head? ∨ (replaceDdpFob l).head? = some 'F' := by
  match l with
  | [] => left; rfl
  | [a] => left; rfl
  | [a, b] => left; rfl
  | a :: b :: c :: rest =>
    by_cases h : isDdpAt a b c = true
    · right; simp [replaceDdpFob, h]
    · left; simp [replaceDdpFob, h]

theorem startsWithCI_ddp_cons (x : Char) (l : List Char) :
    startsWithCI ddpTok (x :: l) =
      ((lowerChar x == 'd') && startsWithCI ['D', 'P'] l) := by
  simp only [startsWithCI, ddpTok]
  rw [show lowerChar 'D' = 'd' from by decide]

theorem startsWithCI_dp_cons (x : Char) (l : List Char) :
    startsWithCI ['D', 'P'] (x :: l) =
      ((lowerChar x == 'd') && startsWithCI ['P'] l) := by
  simp only [startsWithCI]
  rw [show lowerChar 'D' = 'd' from by decide]

theorem startsWithCI_p_cons (x : Char) (l : List Char) :
    startsWithCI ['P'] (x :: l) = (lowerChar x == 'p') := by
  simp only [startsWithCI, Bool.and_true]
  rw [show lowerChar 'P' = 'p' from by decide]

theorem replaceDdpFob_no_ddp (l : List Char) :
    containsCI ddpTok (replaceDdpFob l) = false := by
  induction l using replaceDdpFob.induct with
  | case1 a b c rest h ih =>
    rw [replaceDdpFob, if_pos h]
    simp [containsCI, startsWithCI_ddp_cons, ih,
      show (lowerChar 'F' == 'd') = false from by decide,
      show (lowerChar 'O' == 'd') = false from by decide,
      show (lowerChar 'B' == 'd') = false from by decide]
  | case2 a b c rest h ih =>
    rw [replaceDdpFob, if_neg h]
    simp only [containsCI, ih, Bool.or_false, startsWithCI_ddp_cons]
    by_cases ha : lowerChar a = 'd'
    · simp only [ha, beq_self_eq_true, Bool.true_and]
      have hbc : (lowerChar b == 'd') = false ∨ (lowerChar c == 'p') = false := by
        by_contra hcon
        push_neg at hcon
        apply h
        simp only [isDdpAt, ha, beq_self_eq_true, Bool.true_and]
        simp only [Bool.not_eq_false] at hcon
        rw [hcon.1, hcon.2]
        rfl
      cases rest with
      | nil =>
        rw [show replaceDdpFob [b, c] = [b, c] from rfl, startsWithCI_dp_cons,
          startsWithCI_p_cons]
        rcases hbc with hb | hc
        · rw [hb]; rfl
        · rw [hc]; simp
      | cons r0 rest2 =>
        by_cases h2 : isDdpAt b c r0 = true
        · rw [replaceDdpFob, if_pos h2, startsWithCI_dp_cons]
          rw [show (lowerChar 'F' == 'd') = false from by decide]
          rfl
        · rw [replaceDdpFob, if_neg h2, startsWithCI_dp_cons]
          rcases hbc with hb | hc
          · rw [hb]; rfl
          · rcases replaceDdpFob_head (c :: r0 :: rest2) with hh | hh <;>
              rcases hz : replaceDdpFob (c :: r0 :: rest2) with _ | ⟨z0, zt⟩ <;>
              rw [hz] at hh <;> simp only [List.head?] at hh
            · simp [startsWithCI]
            · cases hh
              rw [startsWithCI_p_cons, hc]
              simp
            · simp [startsWithCI]
            · cases hh
              rw [startsWithCI_p_cons]
              rw [show (lowerChar 'F' == 'p') = false from by decide]
              simp
    · have ha2 : (lowerChar a == 'd') = false := by
        simpa using ha
      rw [ha2]
      rfl
  | case3 l h =>
    rcases l with _ | ⟨a, _ | ⟨b, _ | ⟨c, rest⟩⟩⟩
    · rfl
    · rw [show replaceDdpFob [a] = [a] from rfl]
      simp only [containsCI, startsWithCI_ddp_one, Bool.false_or]
      rfl
    · rw [show replaceDdpFob [a, b] = [a, b] from rfl]
      simp only [containsCI, startsWithCI_ddp_one, startsWithCI_ddp_two, Bool.false_or]
      rfl
    · exact (h a b c rest rfl).elim

theorem canonical_no_ddp : containsCI ddpTok fobUsaCanonical = false := by decide

theorem stage4_cell_no_ddp (t : List Char) :
    containsCI ddpTok (stage4_cell t) = false := by
  unfold stage4_cell normalize_fob_usa_cell
  by_cases h : (containsCI fobTok (replaceDdpFob t) && containsCI usaTok (replaceDdpFob t)) = true
  · rw [if_pos h]; exact canonical_no_ddp
  · rw [if_neg h]; exact replaceDdpFob_no_ddp t

/-- C3 counterexample: the one-cell workbook whose cell reads "DDP USA"
refutes the claim as stated.  The cell does not contain the replacement
token "FOB" before the pass, so by the claim it belongs to the "all other
cells" class and should merely have its marker substring replaced
(yielding "FOB USA"); the code instead overwrites it with the canonical
string, because the FOB∧USA co-occurrence test runs after the DDP→FOB
replacement. -/
theorem c3_counterexample :
    containsCI fobTok (("DDP USA").data) = false ∧
    containsCI usaTok (("DDP USA").data) = true ∧
    replace_ddp_fob_and_normalize_fob_usa_all_sheets c3CexWb = [c3OutSheet] ∧
    fobUsaCanonical ≠ replaceDdpFob (("DDP USA").data) := by decide

/-- C3 (amended): after the stage-4 pass no cell contains the marker "DDP"
as a case-insensitive substring; every cell whose text after the DDP→FOB
substring replacement contains both "FOB" and "USA" (case-insensitively)
holds exactly the canonical string "FOB, BUSAN PORT"; every other cell's
final text is exactly its text with only the marker substring replaced. -/
theorem c3_amended_normalization :
    (∀ (wb : List Worksheet) (ws : Worksheet) (e : CellEntry),
        ws ∈ replace_ddp_fob_and_normalize_fob_usa_all_sheets wb → e ∈ ws.cells →
        containsCI ddpTok e.text = false) ∧
    (∀ t : List Char,
        (containsCI fobTok (replaceDdpFob t) && containsCI usaTok (replaceDdpFob t)) = true →
        stage4_cell t = fobUsaCanonical) ∧
    (∀ t : List Char,
        (containsCI fobTok (replaceDdpFob t) && containsCI usaTok (replaceDdpFob t)) = false →
        stage4_cell t = replaceDdpFob t) := by
  refine ⟨?_, ?_, ?_⟩
  · intro wb ws e hws he
    unfold replace_ddp_fob_and_normalize_fob_usa_all_sheets normalize_fob_usa_all_sheets
      replace_ddp_fob_all_sheets at hws
    rw [List.map_map] at hws
    rcases List.mem_map.mp hws with ⟨ws0, _, rfl⟩
    simp only [Function.comp, map_cells, List.map_map] at he
    rcases List.mem_map.mp he with ⟨e0, _, rfl⟩
    exact stage4_cell_no_ddp e0.text
  · intro t h
    unfold stage4_cell normalize_fob_usa_cell
    rw [if_pos h]
  · intro t h
    unfold stage4_cell normalize_fob_usa_cell
    rw [if_neg (by simp [h])]

/-- C3 witness: the amended theorem applied to the concrete workbook
`c3CexWb` and to the concrete cell texts "DDP USA" and "no marker". -/
theorem c3_witness :
    containsCI ddpTok (⟨1, 1, fobUsaCanonical⟩ : CellEntry).text = false ∧
    stage4_cell (("DDP USA").data) = fobUsaCanonical ∧
    stage4_cell (("no marker").data) = replaceDdpFob (("no marker").data) := by
  refine ⟨?_, ?_, ?_⟩
  · exact c3_amended_normalization.1 c3CexWb c3OutSheet ⟨1, 1, fobUsaCanonical⟩
      (by decide) (by decide)
  · exact c3_amended_normalization.2.1 (("DDP USA").data) (by decide)
  · exact c3_amended_normalization.2.2 (("no marker").data) (by decide)

theorem foldl_min_col_le (ms : List CellEntry) :
    ∀ a : Nat, (ms.foldl (fun acc e => min acc (e.col + 3)) a) ≤ a ∧
      ∀ e ∈ ms, (ms.foldl (fun acc e => min acc (e.col + 3)) a) ≤ e.col + 3 := by
  induction ms with
  | nil => intro a; exact ⟨Nat.le_refl _, by intro e he; cases he⟩
  | cons x xs ih =>
    intro a
    simp only [List.foldl_cons]
    rcases ih (min a (x.col + 3)) with ⟨h1, h2⟩
    refine ⟨Nat.le_trans h1 (Nat.min_le_left _ _), ?_⟩
    intro e he
    rcases List.mem_cons.mp he with rfl | he2
    · exact Nat.le_trans h1 (Nat.min_le_right _ _)
    · exact h2 e he2

theorem foldl_min_col_mem (ms : List CellEntry) :
    ∀ a : Nat, (ms.foldl (fun acc e => min acc (e.col + 3)) a) = a ∨
      ∃ e ∈ ms, (ms.foldl (fun acc e => min acc (e.col + 3)) a) = e.col + 3 := by
  induction ms with
  | nil => intro a; exact Or.inl rfl
  | cons x xs ih =>
    intro a
    simp only [List.foldl_cons]
    rcases ih (min a (x.col + 3)) with h | ⟨e, he, hev⟩
    · rw [h]
      rcases Nat.le_total a (x.col + 3) with hle | hle
      · exact Or.inl (Nat.min_eq_left hle)
      · exact Or.inr ⟨x, List.mem_cons_self x xs, Nat.min_eq_right hle⟩
    · exact Or.inr ⟨e, List.mem_cons_of_mem x he, hev⟩

/-- C1: the clearing start column on the PS sheet.  With no cell containing
"DDP" (case-insensitive substring) the start column is the fixed default
12, regardless of the rest of the document's content; with at least one
match it is the minimum over all matching cells of (match column + 3), and
a single marker at column 7 yields start column 10. -/
theorem c1_dynamic_clear_start_col :
    (∀ cells : List CellEntry, (∀ e ∈ cells, containsCI ddpTok e.text = false) →
        find_earliest_clear_start_col_for_ps cells = none ∧
        clear_start_col (find_earliest_clear_start_col_for_ps cells) = 12) ∧
    (∀ (cells : List CellEntry) (e0 : CellEntry), e0 ∈ cells →
        containsCI ddpTok e0.text = true →
        ∃ m ∈ cells, containsCI ddpTok m.text = true ∧
          find_earliest_clear_start_col_for_ps cells = some (m.col + 3) ∧
          clear_start_col (find_earliest_clear_start_col_for_ps cells) = m.col + 3 ∧
          ∀ e ∈ cells, containsCI ddpTok e.text = true → m.col + 3 ≤ e.col + 3) ∧
    (find_earliest_clear_start_col_for_ps [⟨2, 7, ddpTok⟩] = some 10 ∧
      clear_start_col (find_earliest_clear_start_col_for_ps [⟨2, 7, ddpTok⟩]) = 10) := by
  refine ⟨?_, ?_, by decide⟩
  · intro cells hall
    have hnil : cells.filter cell_matches_ddp = [] := by
      rw [List.filter_eq_nil_iff]
      intro e he
      simp [cell_matches_ddp, hall e he]
    constructor
    · unfold find_earliest_clear_start_col_for_ps
      rw [hnil]
    · unfold find_earliest_clear_start_col_for_ps
      rw [hnil]
      rfl
  · intro cells e0 he0 hm0
    have hmem : e0 ∈ cells.filter cell_matches_ddp :=
      List.mem_filter.mpr ⟨he0, by simpa [cell_matches_ddp] using hm0⟩
    rcases hflt : cells.filter cell_matches_ddp with _ | ⟨m0, ms⟩
    · rw [hflt] at hmem; cases hmem
    · have hval : find_earliest_clear_start_col_for_ps cells
          = some (ms.foldl (fun acc e => min acc (e.col + 3)) (m0.col + 3)) := by
        unfold find_earliest_clear_start_col_for_ps
        rw [hflt]
      set v := ms.foldl (fun acc e => min acc (e.col + 3)) (m0.col + 3) with hv
      have hmemv : ∃ m ∈ m0 :: ms, v = m.col + 3 := by
        rcases foldl_min_col_mem ms (m0.col + 3) with h | ⟨e, he, hev⟩
        · exact ⟨m0, List.mem_cons_self m0 ms, h⟩
        · exact ⟨e, List.mem_cons_of_mem m0 he, hev⟩
      rcases hmemv with ⟨m, hmmem, hmv⟩
      have hmcells : m ∈ cells.filter cell_matches_ddp := by rw [hflt]; exact hmmem
      refine ⟨m, (List.mem_filter.mp hmcells).1, ?_, ?_, ?_, ?_⟩
      · have := (List.mem_filter.mp hmcells).2
        simpa [cell_matches_ddp] using this
      · rw [hval, hmv]
      · rw [hval, hmv]
        simp only [clear_start_col]
        rw [if_neg (by omega)]
      · intro e he hme
        have hef : e ∈ m0 :: ms := by
          rw [← hflt]
          exact List.mem_filter.mpr ⟨he, by simpa [cell_matches_ddp] using hme⟩
        rw [← hmv]
        rcases List.mem_cons.mp hef with rfl | he2
        · exact (foldl_min_col_le ms (e.col + 3)).1
        · exact (foldl_min_col_le ms (m0.col + 3)).2 e he2

/-- C1 witness: the theorem's three parts applied to concrete sheets — a
sheet with no marker anywhere, and a sheet with markers at columns 9 and 7
(minimum 7 + 3 = 10). -/
theorem c1_witness :
    clear_start_col (find_earliest_clear_start_col_for_ps [⟨1, 4, ("plain").data⟩]) = 12 ∧
    ∃ m ∈ [(⟨5, 9, ("a DDP").data⟩ : CellEntry), ⟨6, 7, ("ddp!").data⟩],
      containsCI ddpTok m.text = true ∧
      find_earliest_clear_start_col_for_ps
          [(⟨5, 9, ("a DDP").data⟩ : CellEntry), ⟨6, 7, ("ddp!").data⟩] = some (m.col + 3) ∧
      clear_start_col (find_earliest_clear_start_col_for_ps
          [(⟨5, 9, ("a DDP").data⟩ : CellEntry), ⟨6, 7, ("ddp!").data⟩]) = m.col + 3 ∧
      ∀ e ∈ [(⟨5, 9, ("a DDP").data⟩ : CellEntry), ⟨6, 7, ("ddp!").data⟩],
        containsCI ddpTok e.text = true → m.col + 3 ≤ e.col + 3 := by
  constructor
  · exact (c1_dynamic_clear_start_col.1 [⟨1, 4, ("plain").data⟩] (by decide)).2
  · exact c1_dynamic_clear_start_col.2.1 _ ⟨6, 7, ("ddp!").data⟩ (by decide) (by decide)

theorem char_toNat_ofNat_label (n : Nat) (h : n < 55296) : (Char.ofNat n).toNat = n := by
  unfold Char.ofNat
  rw [dif_pos (Or.inl h)]
  rfl

theorem label_to_index_append_last (l : List Char) (c : Char) :
    label_to_index (l ++ [c]) = label_to_index l * 26 + (c.toNat - 64) := by
  unfold label_to_index
  rw [List.foldl_append]
  rfl

/-- C9: `column_index_to_label` terminates (it is a total function), agrees
with the standard bijective base-26 Excel labels on 1 ↦ "A", 26 ↦ "Z",
27 ↦ "AA" and 16384 ↦ "XFD", and `label_to_index` — the standard
interpretation of a label — is a left inverse of it on every index. -/
theorem c9_column_label_correct :
    (∀ idx : Nat, label_to_index (column_index_to_label idx) = idx) ∧
    column_index_to_label 1 = ['A'] ∧
    column_index_to_label 26 = ['Z'] ∧
    column_index_to_label 27 = ['A', 'A'] ∧
    column_index_to_label 16384 = ['X', 'F', 'D'] := by
  have hinv : ∀ idx : Nat, label_to_index (column_index_to_label idx) = idx := by
    intro idx
    induction idx using Nat.strong_induction_on with
    | _ idx ih =>
      by_cases h : idx = 0
      · subst h
        rw [column_index_to_label, if_pos rfl]
        rfl
      · rw [column_index_to_label, if_neg h, label_to_index_append_last,
          ih ((idx - 1) / 26) (Nat.lt_of_le_of_lt (Nat.div_le_self _ _) (by omega)),
          char_toNat_ofNat_label (65 + (idx - 1) % 26)
            (by have := Nat.mod_lt (idx - 1) (show 0 < 26 by decide); omega)]
        have hdm := Nat.div_add_mod (idx - 1) 26
        omega
  refine ⟨hinv, ?_, ?_, ?_, ?_⟩ <;>
    simp [column_index_to_label]

theorem snapshot_fst (safeLeft : Int) :
    ∀ (y : Int) (l : List Shape), (snapshot_and_move_aux safeLeft y l).1 = l := by
  intro y l
  induction l generalizing y with
  | nil => rfl
  | cons s rest ih => simp [snapshot_and_move_aux, ih]

theorem snapshot_snd_names (safeLeft : Int) :
    ∀ (y : Int) (l : List Shape),
      ((snapshot_and_move_aux safeLeft y l).2).map Shape.name = l.map Shape.name := by
  intro y l
  induction l generalizing y with
  | nil => rfl
  | cons s rest ih => simp [snapshot_and_move_aux, ih]

theorem lookup_last_not_found (info : List Shape) (n : List Char)
    (h : n ∉ info.map Shape.name) : lookup_by_name_last info n = none := by
  unfold lookup_by_name_last
  rw [List.find?_eq_none]
  intro m hm
  simp only [beq_iff_eq]
  intro hname
  exact h (List.mem_map.mpr ⟨m, List.mem_reverse.mp hm, hname⟩)

theorem lookup_last_cons_found (s : Shape) (info : List Shape) (n : List Char)
    (h : n ∈ info.map Shape.name) :
    lookup_by_name_last (s :: info) n = lookup_by_name_last info n := by
  unfold lookup_by_name_last
  rw [List.reverse_cons, List.find?_append]
  rcases List.mem_map.mp h with ⟨m, hm, hname⟩
  have hsome : (info.reverse.find? (fun m => m.name == n)).isSome := by
    rw [List.find?_isSome]
    exact ⟨m, List.mem_reverse.mpr hm, by simp [hname]⟩
  rcases ho : info.reverse.find? (fun m => m.name == n) with _ | v
  · rw [ho] at hsome; cases hsome
  · rw [ho]; rfl

theorem lookup_last_cons_self (s : Shape) (info : List Shape)
    (h : s.name ∉ info.map Shape.name) :
    lookup_by_name_last (s :: info) s.name = some s := by
  unfold lookup_by_name_last
  rw [List.reverse_cons, List.find?_append]
  rw [show info.reverse.find? (fun m => m.name == s.name) = none from ?_]
  · simp [List.find?]
  · rw [List.find?_eq_none]
    intro m hm
    simp only [beq_iff_eq]
    intro hname
    exact h (List.mem_map.mpr ⟨m, List.mem_reverse.mp hm, hname⟩)

theorem restore_shapes_cons (info : List Shape) (x : Shape) (xs : List Shape) :
    restore_shapes info (x :: xs) =
      (match lookup_by_name_last info x.name with
       | some m =>
         { x with left := m.left, top := m.top, width := m.width, height := m.height,
                  locked := m.locked }
       | none => x) :: restore_shapes info xs := by
  rfl

theorem restore_aux_round_trip (safeLeft : Int) :
    ∀ (y : Int) (shapes : List Shape), (shapes.map Shape.name).Nodup →
      restore_shapes (snapshot_and_move_aux safeLeft y shapes).1
        (snapshot_and_move_aux safeLeft y shapes).2 = shapes := by
  intro y shapes
  induction shapes generalizing y with
  | nil => intro _; rfl
  | cons s rest ih =>
    intro h
    have hpair : (∀ x ∈ rest, ¬x.name = s.name) ∧ (rest.map Shape.name).Nodup := by
      simpa using h
    obtain ⟨hs, hrest⟩ := hpair
    have hsnot : s.name ∉ rest.map Shape.name := by
      intro hmem
      rcases List.mem_map.mp hmem with ⟨m, hm, hname⟩
      exact hs m hm hname
    simp only [snapshot_and_move_aux]
    rw [snapshot_fst, restore_shapes_cons, lookup_last_cons_self s rest hsnot]
    have htail : restore_shapes (s :: rest)
          (snapshot_and_move_aux safeLeft (y + s.height + 10) rest).2
        = restore_shapes rest
          (snapshot_and_move_aux safeLeft (y + s.height + 10) rest).2 := by
      unfold restore_shapes
      apply List.map_congr_left
      intro m hm
      have hmname : m.name ∈ rest.map Shape.name := by
        rw [← snapshot_snd_names safeLeft (y + s.height + 10) rest]
        exact List.mem_map.mpr ⟨m, hm, rfl⟩
      rw [lookup_last_cons_found s rest m.name hmname]
    rw [htail]
    have hrt := ih (y + s.height + 10) hrest
    rw [snapshot_fst] at hrt
    rw [hrt]

/-- C4 counterexample: with two shapes both named "S" the stage-6
snapshot/relocate/restore sequence is not a round trip — the name-keyed
snapshot dict is last-write-wins, so the first shape is restored to the
second shape's geometry and lock state. -/
theorem c4_counterexample :
    shape_stage_round_trip 0 0 [dupShapeA, dupShapeB] ≠ [dupShapeA, dupShapeB] := by decide

/-- C4 (amended): provided the shapes on the target sheet have pairwise
distinct names, the stage-6 snapshot-and-relocate / bulk-clear / restore
sequence is a round trip: every shape is present afterward with its
original name, position, size and lock state. -/
theorem c4_amended_round_trip (safeLeft safeTop : Int) (shapes : List Shape)
    (h : (shapes.map Shape.name).Nodup) :
    shape_stage_round_trip safeLeft safeTop shapes = shapes := by
  unfold shape_stage_round_trip snapshot_and_move_shapes_to_safe_area
  exact restore_aux_round_trip safeLeft safeTop shapes h

/-- C4 witness: the amended round trip applied to two concrete,
distinctly named shapes. -/
theorem c4_witness : shape_stage_round_trip 0 0 [shapeP, shapeQ] = [shapeP, shapeQ] :=
  c4_amended_round_trip 0 0 [shapeP, shapeQ] (by decide)

theorem freeze_cell_step_other {α : Type} (cached : Nat → Nat → Option α)
    (g : Nat → Nat → GridCell α) (p q : Nat × Nat) (hne : q ≠ p) :
    freeze_cell_step cached g p q.1 q.2 = g q.1 q.2 := by
  unfold freeze_cell_step
  by_cases hm : (g p.1 p.2).mergedNonAnchor
  · rw [if_pos hm]
  · rw [if_neg hm]
    rcases hc : cached p.1 p.2 with _ | v
    · rfl
    · have : ¬(q.1 = p.1 ∧ q.2 = p.2) := by
        intro hqp
        exact hne (Prod.ext hqp.1 hqp.2)
      simp only []
      rw [if_neg this]

theorem freeze_cell_step_self {α : Type} (cached : Nat → Nat → Option α)
    (g : Nat → Nat → GridCell α) (p : Nat × Nat) :
    freeze_cell_step cached g p p.1 p.2 =
      (if (g p.1 p.2).mergedNonAnchor then g p.1 p.2
       else
         match cached p.1 p.2 with
         | some v => { g p.1 p.2 with value := v }
         | none => g p.1 p.2) := by
  unfold freeze_cell_step
  by_cases hm : (g p.1 p.2).mergedNonAnchor
  · rw [if_pos hm, if_pos hm]
  · rw [if_neg hm, if_neg hm]
    rcases hc : cached p.1 p.2 with _ | v
    · rfl
    · simp

theorem freeze_fold_not_mem {α : Type} (cached : Nat → Nat → Option α) (p : Nat × Nat) :
    ∀ (l : List (Nat × Nat)) (g : Nat → Nat → GridCell α), p ∉ l →
      (l.foldl (freeze_cell_step cached) g) p.1 p.2 = g p.1 p.2 := by
  intro l
  induction l with
  | nil => intro g _; rfl
  | cons q l2 ih =>
    intro g hp
    rw [List.foldl_cons]
    rw [ih (freeze_cell_step cached g q) (fun hmem => hp (List.mem_cons_of_mem q hmem))]
    exact freeze_cell_step_other cached g q p
      (fun hqp => hp (hqp ▸ List.mem_cons_self q l2))

theorem freeze_fold_mem {α : Type} (cached : Nat → Nat → Option α) (p : Nat × Nat) :
    ∀ (l : List (Nat × Nat)) (g : Nat → Nat → GridCell α), l.Nodup → p ∈ l →
      (l.foldl (freeze_cell_step cached) g) p.1 p.2 =
        (if (g p.1 p.2).mergedNonAnchor then g p.1 p.2
         else
           match cached p.1 p.2 with
           | some v => { g p.1 p.2 with value := v }
           | none => g p.1 p.2) := by
  intro l
  induction l with
  | nil => intro g _ hp; cases hp
  | cons q l2 ih =>
    intro g hnd hp
    rcases List.nodup_cons.mp hnd with ⟨hq, hnd2⟩
    rw [List.foldl_cons]
    rcases List.mem_cons.mp hp with rfl | hp2
    · rw [freeze_fold_not_mem cached p l2 _ hq]
      exact freeze_cell_step_self cached g p
    · have hne : p ≠ q := by
        intro hpq
        exact hq (hpq ▸ hp2)
      rw [ih (freeze_cell_step cached g q) hnd2 hp2,
        freeze_cell_step_other cached g q p hne]

theorem freeze_coords_mem (mr mc : Nat) (r c : Nat) :
    (r, c) ∈ freeze_coords mr mc ↔ 1 ≤ r ∧ r ≤ mr ∧ 1 ≤ c ∧ c ≤ mc := by
  unfold freeze_coords
  simp only [List.mem_flatMap, List.mem_map, List.mem_range, Prod.mk.injEq]
  constructor
  · rintro ⟨r0, hr0, c0, hc0, rfl, rfl⟩
    omega
  · rintro ⟨h1, h2, h3, h4⟩
    exact ⟨r - 1, by omega, c - 1, by omega, by omega, by omega⟩

theorem freeze_coords_nodup (mr mc : Nat) : (freeze_coords mr mc).Nodup := by
  unfold freeze_coords
  rw [List.nodup_flatMap]
  constructor
  · intro r _
    exact (List.nodup_range mc).map (fun c1 c2 hcc => by
      simpa using congrArg Prod.snd hcc)
  · rw [List.pairwise_iff_get]
    intro i j hij
    simp only [Function.onFun, List.get_eq_getElem, List.getElem_range]
    rw [List.disjoint_left]
    rintro p hp1 hp2
    rcases List.mem_map.mp hp1 with ⟨c1, _, rfl⟩
    rcases List.mem_map.mp hp2 with ⟨c2, _, hc2⟩
    have : (i : Nat) + 1 = (j : Nat) + 1 := congrArg Prod.fst hc2.symm
    omega

/-- C5: after `freeze_to_values`, every in-range cell that is a non-top-left
member of a merged region is unchanged; every other in-range cell with a
cached computed value holds that cached value with its formatting and
merge flag untouched; every other in-range cell without a cached value is
unchanged; and cells outside the iterated rectangle are unchanged. -/
theorem c5_freeze_to_values_spec {α : Type} (cached : Nat → Nat → Option α)
    (g : Nat → Nat → GridCell α) (mr mc : Nat) :
    (∀ r c, 1 ≤ r → r ≤ mr → 1 ≤ c → c ≤ mc →
        freeze_to_values cached g mr mc r c =
          (if (g r c).mergedNonAnchor then g r c
           else
             match cached r c with
             | some v => { g r c with value := v }
             | none => g r c)) ∧
    (∀ r c, r = 0 ∨ mr < r ∨ c = 0 ∨ mc < c →
        freeze_to_values cached g mr mc r c = g r c) := by
  constructor
  · intro r c h1 h2 h3 h4
    have hmem : (r, c) ∈ freeze_coords mr mc :=
      (freeze_coords_mem mr mc r c).mpr ⟨h1, h2, h3, h4⟩
    exact freeze_fold_mem cached (r, c) (freeze_coords mr mc) g
      (freeze_coords_nodup mr mc) hmem
  · intro r c hout
    have hnot : (r, c) ∉ freeze_coords mr mc := by
      intro hmem
      rcases (freeze_coords_mem mr mc r c).mp hmem with ⟨h1, h2, h3, h4⟩
      omega
    exact freeze_fold_not_mem cached (r, c) (freeze_coords mr mc) g hnot

/-- C5 witness: the spec applied to the concrete 2×2 grid — the cell (1,1)
with a cached value 99 takes it (format preserved), the merged non-anchor
cell (2,2) is skipped although a cached value exists, the cell (1,2)
without a cached value is unchanged, and the out-of-range cell (3,1) is
unchanged. -/
theorem c5_witness :
    freeze_to_values exCached exGrid 2 2 1 1 = { value := 99, fmt := 7, mergedNonAnchor := false } ∧
    freeze_to_values exCached exGrid 2 2 2 2 = exGrid 2 2 ∧
    freeze_to_values exCached exGrid 2 2 1 2 = exGrid 1 2 ∧
    freeze_to_values exCached exGrid 2 2 3 1 = exGrid 3 1 := by
  refine ⟨?_, ?_, ?_, ?_⟩
  · rw [(c5_freeze_to_values_spec exCached exGrid 2 2).1 1 1 (by decide) (by decide)
      (by decide) (by decide)]
    rfl
  · rw [(c5_freeze_to_values_spec exCached exGrid 2 2).1 2 2 (by decide) (by decide)
      (by decide) (by decide)]
    rfl
  · rw [(c5_freeze_to_values_spec exCached exGrid 2 2).1 1 2 (by decide) (by decide)
      (by decide) (by decide)]
    rfl
  · exact (c5_freeze_to_values_spec exCached exGrid 2 2).2 3 1 (by omega)

theorem matches_ps_pattern_holds (d : List Char) (w : Char) (rest : List Char)
    (hd6 : d.length = 6) (hdig : d.all isDigitChar = true) (hw : isSpaceChar w = true) :
    matches_ps_date_pattern (d ++ w :: 'P' :: 'S' :: '-' :: rest) = true := by
  unfold matches_ps_date_pattern
  rw [show (6 : Nat) = d.length from hd6.symm, List.take_left, List.drop_left]
  simp [hdig, hw, hd6]
  decide

/-- C6 counterexample: the input "123456 RFP-A.xlsx" has no "yymmdd PS-"
prefix but does start with a six-digit date, so by the claim the new token
would be inserted after the date; the code instead appends "_RFP" before
the extension because the name already contains "RFP-". -/
theorem c6_counterexample :
    matches_ps_date_pattern (("123456 RFP-A.xlsx").data) = false ∧
    leading_six_digits (("123456 RFP-A.xlsx").data) = true ∧
    rename_to_rfp (("123456 RFP-A.xlsx").data) = ("123456 RFP-A_RFP.xlsx").data ∧
    rename_to_rfp (("123456 RFP-A.xlsx").data) ≠ ("123456 RFP-RFP-A.xlsx").data := by decide

/-- C6 (amended): the transform replaces a leading "yymmdd PS-" prefix
with "yymmdd RFP-", preserving the date and extension (witnessed by the
spec's concrete example); when that pattern is absent it inserts the new
token after a detected leading six-digit date provided the name does not
already contain "RFP-" case-insensitively (consuming one optional
whitespace after the date); otherwise it appends "_RFP" before the
extension. -/
theorem c6_amended_rename :
    rename_to_rfp (("250826 PS-USA-2444 EGLINTON PJT-A.xlsm").data)
        = ("250826 RFP-USA-2444 EGLINTON PJT-A.xlsm").data ∧
    (∀ (d : List Char) (w : Char) (rest : List Char),
        d.length = 6 → d.all isDigitChar = true → isSpaceChar w = true →
        rename_to_rfp (d ++ w :: 'P' :: 'S' :: '-' :: rest)
          = d ++ (" RFP-").data ++ rest) ∧
    (∀ name : List Char,
        matches_ps_date_pattern name = false → leading_six_digits name = true →
        containsCI rfpDashTok name = false →
        rename_to_rfp name
          = name.take 6 ++ (" RFP-").data ++ strip_opt_space (name.drop 6)) ∧
    (∀ name : List Char,
        matches_ps_date_pattern name = false →
        (leading_six_digits name = false ∨ containsCI rfpDashTok name = true) →
        rename_to_rfp name
          = (split_stem_suffix name).1 ++ ("_RFP").data ++ (split_stem_suffix name).2) := by
  refine ⟨by decide, ?_, ?_, ?_⟩
  · intro d w rest hd6 hdig hw
    unfold rename_to_rfp
    rw [if_pos (matches_ps_pattern_holds d w rest hd6 hdig hw)]
    have h10 : (10 : Nat) = d.length + 4 := by omega
    rw [show (6 : Nat) = d.length from hd6.symm, List.take_left, h10, List.drop_append]
    rfl
  · intro name hpat hlead hrfp
    unfold rename_to_rfp
    rw [if_neg (by simp [hpat]), if_pos (by simp [hlead, hrfp])]
  · intro name hpat hor
    unfold rename_to_rfp
    rw [if_neg (by simp [hpat]), if_neg ?_]
    rcases hor with h | h <;> simp [h]

/-- C6 witness: the amended rules applied to the concrete names
"991231<tab>ps-x.xlsm" (primary pattern, case-insensitive, any
whitespace), "123456X.xlsx" (date-insertion fallback) and "plain.xlsx"
(suffix-append fallback). -/
theorem c6_witness :
    rename_to_rfp (("991231").data ++ '\t' :: 'P' :: 'S' :: '-' :: ("x.xlsm").data)
        = ("991231").data ++ (" RFP-").data ++ ("x.xlsm").data ∧
    rename_to_rfp (("123456X.xlsx").data)
        = ("123456X.xlsx").data.take 6 ++ (" RFP-").data
            ++ strip_opt_space (("123456X.xlsx").data.drop 6) ∧
    rename_to_rfp (("plain.xlsx").data)
        = (split_stem_suffix (("plain.xlsx").data)).1 ++ ("_RFP").data
            ++ (split_stem_suffix (("plain.xlsx").data)).2 := by
  refine ⟨?_, ?_, ?_⟩
  · exact c6_amended_rename.2.1 (("991231").data) '\t' (("x.xlsm").data)
      (by decide) (by decide) (by decide)
  · exact c6_amended_rename.2.2.1 (("123456X.xlsx").data) (by decide) (by decide) (by decide)
  · exact c6_amended_rename.2.2.2 (("plain.xlsx").data) (by decide) (Or.inl (by decide))

theorem strip_opt_space_len (l : List Char) : l.length ≤ (strip_opt_space l).length + 1 := by
  cases l with
  | nil => simp [strip_opt_space]
  | cons w t =>
    simp only [strip_opt_space]
    by_cases h : isSpaceChar w = true
    · rw [if_pos h]; simp
    · rw [if_neg h]; simp

theorem split_stem_suffix_concat (name : List Char) :
    (split_stem_suffix name).1 ++ (split_stem_suffix name).2 = name := by
  unfold split_stem_suffix
  rcases h : name.reverse.findIdx? (fun c => c == '.') with _ | j
  · simp
  · simp only []
    by_cases hc : 0 < name.length - 1 - j ∧ name.length - 1 - j < name.length - 1
    · rw [if_pos hc]
      exact List.take_append_drop _ name
    · rw [if_neg hc]
      simp

theorem matches_ps_len (name : List Char) (h : matches_ps_date_pattern name = true) :
    10 ≤ name.length := by
  unfold matches_ps_date_pattern at h
  rcases hd : name.drop 6 with _ | ⟨w, _ | ⟨p, _ | ⟨s, _ | ⟨dash, rest⟩⟩⟩⟩ <;>
      rw [hd] at h <;> simp at h
  have hlen := congrArg List.length hd
  rw [List.length_drop] at hlen
  simp at hlen
  omega

theorem leading_six_len (name : List Char) (h : leading_six_digits name = true) :
    6 ≤ name.length := by
  unfold leading_six_digits at h
  have h1 : (name.take 6).length = 6 :=
    of_decide_eq_true ((Bool.and_eq_true _ _).mp h).1
  rw [List.length_take] at h1
  omega

theorem rename_to_rfp_longer (name : List Char) :
    name.length < (rename_to_rfp name).length := by
  unfold rename_to_rfp
  by_cases h1 : matches_ps_date_pattern name = true
  · rw [if_pos h1]
    have h10 := matches_ps_len name h1
    simp only [List.length_append, List.length_take, List.length_drop,
      show (" RFP-").data.length = 5 from rfl]
    omega
  · rw [if_neg h1]
    by_cases h2 : (leading_six_digits name && !(containsCI rfpDashTok name)) = true
    · rw [if_pos h2]
      have h6 := leading_six_len name ((Bool.and_eq_true _ _).mp h2).1
      have hs := strip_opt_space_len (name.drop 6)
      rw [List.length_drop] at hs
      simp only [List.length_append, List.length_take,
        show (" RFP-").data.length = 5 from rfl]
      omega
    · rw [if_neg h2]
      have hc := congrArg List.length (split_stem_suffix_concat name)
      rw [List.length_append] at hc
      simp only [List.length_append, show ("_RFP").data.length = 4 from rfl]
      omega

/-- C7: every path a run of the sanitizer saves to is the derived output
name, which always differs from the source name (it is strictly longer),
and the opened workbook is always closed with `SaveChanges=False`; hence
the source file is never overwritten. -/
theorem c7_source_never_overwritten (srcName : List Char) (wb : List Worksheet)
    (p : List Char) (hp : p ∈ (main_run srcName wb).1.savedTo) :
    p ≠ srcName ∧ (main_run srcName wb).1.closeSaveChanges = false := by
  have hclose : (main_run srcName wb).1.closeSaveChanges = false := by
    unfold main_run
    rcases hps : get_ps_sheet (convert_all_used_ranges_to_values (delete_cover_if_present wb))
      with _ | psIdx <;> simp [hps]
  refine ⟨?_, hclose⟩
  have hpout : p = rename_to_rfp srcName := by
    unfold main_run at hp
    rcases hps : get_ps_sheet (convert_all_used_ranges_to_values (delete_cover_if_present wb))
      with _ | psIdx <;> simp [hps] at hp
    exact hp
  rw [hpout]
  intro heq
  have hlen := rename_to_rfp_longer srcName
  rw [heq] at hlen
  omega

/-- C7 witness: on the concrete source name "a.xlsx" with a minimal PS
workbook, the single saved path is "a_RFP.xlsx", which differs from the
source name, and the close never saves. -/
theorem c7_witness :
    ("a_RFP.xlsx").data ≠ ("a.xlsx").data ∧
    (main_run (("a.xlsx").data) psOnlyWorkbook).1.closeSaveChanges = false :=
  c7_source_never_overwritten (("a.xlsx").data) psOnlyWorkbook (("a_RFP.xlsx").data)
    (by decide)

/-- C8: when the input workbook has no sheet whose name case-insensitively
equals "PS", the run exits with code 1, writes no output, and never
reaches the shape-preserving clear or save stages. -/
theorem c8_missing_ps_aborts (srcName : List Char) (wb : List Worksheet)
    (h : ∀ ws ∈ wb, (lowerStr ws.name == psTok) = false) :
    (main_run srcName wb).1.exitCode = 1 ∧ (main_run srcName wb).1.savedTo = [] ∧
    (main_run srcName wb).1.ranShapeStage = false := by
  have hnone : get_ps_sheet (convert_all_used_ranges_to_values (delete_cover_if_present wb))
      = none := by
    unfold get_ps_sheet convert_all_used_ranges_to_values
    rw [List.findIdx?_eq_none_iff]
    intro ws hws
    exact h ws (List.mem_of_mem_eraseP hws)
  simp only [main_run, hnone]
  trivial

/-- C8 witness: the abort applied to a concrete workbook whose only sheet
is named "Data". -/
theorem c8_witness :
    (main_run (("b.xlsx").data) noPsWorkbook).1.exitCode = 1 ∧
    (main_run (("b.xlsx").data) noPsWorkbook).1.savedTo = [] ∧
    (main_run (("b.xlsx").data) noPsWorkbook).1.ranShapeStage = false :=
  c8_missing_ps_aborts (("b.xlsx").data) noPsWorkbook (by decide)

/-- C2: on the concrete workbook `bugWorkbook` the anchor PS!G4 holds the
non-empty text "ITEM", the next occurrence of that text after the anchor
exists at B9, and the prepared clear range B15:B16 is non-empty — yet
stage 5 changes nothing (the claim says the column is cleared from the
fixed offset below the occurrence): the source's final statement is
`rng.ClearContents` without call parentheses, so — as the last conjunct
shows — an actual `ClearContents()` over the computed range would have
produced a different workbook. -/
theorem c2_clearcontents_never_invoked :
    get_ps_sheet bugWorkbook = some 0 ∧
    stripChars (getCellText (cellsOfSheet bugWorkbook 0) 4 7) ≠ [] ∧
    find_next_occurrence_after_anchor bugWorkbook
        (getCellText (cellsOfSheet bugWorkbook 0) 4 7) 0 4 7
      = some (0, ⟨9, 2, ("ITEM").data⟩) ∧
    9 + 6 ≤ last_used_row_in_col (cellsOfSheet bugWorkbook 0) 2 ∧
    stage5_clear_below_g4_match bugWorkbook 0 = bugWorkbook ∧
    clear_column_contents bugWorkbook 0 2 15 16 ≠ bugWorkbook := by decide

theorem best_step_ne_none (b : Option (Nat × Nat × Nat)) (x : Nat × Nat × Nat) :
    best_step b x ≠ none := by
  obtain ⟨xi, xr, xc⟩ := x
  rcases b with _ | ⟨bi, br, bc⟩
  · simp [best_step, update_best]
  · simp only [best_step, update_best]
    by_cases h : xr < br ∨ (xr = br ∧ xc < bc)
    · rw [if_pos h]; simp
    · rw [if_neg h]; simp

theorem foldl_best_none_iff :
    ∀ (L : List (Nat × Nat × Nat)) (b : Option (Nat × Nat × Nat)),
      (L.foldl best_step b = none ↔ (b = none ∧ L = [])) := by
  intro L
  induction L with
  | nil => intro b; simp
  | cons x L2 ih =>
    intro b
    rw [List.foldl_cons, ih]
    constructor
    · rintro ⟨h1, _⟩
      exact absurd h1 (best_step_ne_none b x)
    · rintro ⟨_, h2⟩
      cases h2

theorem scan_sheet_flat (needle : List Char) (k : Nat) :
    ∀ (cells : List CellEntry) (b : Option (Nat × Nat × Nat)),
      scan_sheet_for_best needle k cells b
        = (sheet_match_triples needle k cells).foldl best_step b := by
  intro cells
  induction cells with
  | nil => intro b; rfl
  | cons e cs ih =>
    intro b
    simp only [scan_sheet_for_best, List.foldl_cons, sheet_match_triples, List.filter_cons]
    by_cases hm : cell_matches needle e = true
    · simp only [hm, if_true, List.map_cons, List.foldl_cons]
      exact ih (update_best b k e.row e.col)
    · simp only [hm, if_false, Bool.false_eq_true]
      exact ih b

theorem find_uppermost_aux_flat (needle : List Char) :
    ∀ (sheets : List Worksheet) (k : Nat) (b : Option (Nat × Nat × Nat)),
      find_uppermost_aux needle sheets k b
        = (wb_match_triples needle sheets k).foldl best_step b := by
  intro sheets
  induction sheets with
  | nil => intro k b; rfl
  | cons ws rest ih =>
    intro k b
    rw [find_uppermost_aux, wb_match_triples, List.foldl_append, ih, scan_sheet_flat]

theorem wb_match_triples_mem (needle : List Char) :
    ∀ (sheets : List Worksheet) (k j r c : Nat),
      ((j, r, c) ∈ wb_match_triples needle sheets k)
        ↔ (k ≤ j ∧ MatchAt sheets needle (j - k) r c) := by
  intro sheets
  induction sheets with
  | nil =>
    intro k j r c
    simp [wb_match_triples, MatchAt]
  | cons ws rest ih =>
    intro k j r c
    rw [wb_match_triples, List.mem_append]
    constructor
    · rintro (h1 | h2)
      · rcases List.mem_map.mp h1 with ⟨e, hef, heq⟩
        have hjk : k = j ∧ e.row = r ∧ e.col = c := by
          simpa [Prod.ext_iff] using heq
        obtain ⟨rfl, hr, hc⟩ := hjk
        refine ⟨Nat.le_refl k, ?_⟩
        rw [Nat.sub_self]
        exact ⟨ws, by simp, e, (List.mem_filter.mp hef).1,
          (List.mem_filter.mp hef).2, hr, hc⟩
      · rcases (ih (k + 1) j r c).mp h2 with ⟨hk1, hm⟩
        refine ⟨by omega, ?_⟩
        have hd : j - k = (j - (k + 1)) + 1 := by omega
        rw [hd]
        unfold MatchAt at hm ⊢
        simpa [List.getElem?_cons_succ] using hm
    · rintro ⟨hk, hm⟩
      by_cases hjk : j = k
      · subst hjk
        left
        rw [Nat.sub_self] at hm
        unfold MatchAt at hm
        rcases hm with ⟨ws0, hws0, e, he, hmt, hr, hc⟩
        rw [List.getElem?_cons_zero] at hws0
        injection hws0 with h0
        subst h0
        exact List.mem_map.mpr ⟨e, List.mem_filter.mpr ⟨he, hmt⟩, by rw [hr, hc]⟩
      · right
        apply (ih (k + 1) j r c).mpr
        refine ⟨by omega, ?_⟩
        have hd : j - k = (j - (k + 1)) + 1 := by omega
        rw [hd] at hm
        unfold MatchAt at hm ⊢
        simpa [List.getElem?_cons_succ] using hm

theorem wb_match_triples_ge (needle : List Char) :
    ∀ (sheets : List Worksheet) (k : Nat) (x : Nat × Nat × Nat),
      x ∈ wb_match_triples needle sheets k → k ≤ x.1 := by
  intro sheets
  induction sheets with
  | nil =>
    intro k x h
    simp [wb_match_triples] at h
  | cons ws rest ih =>
    intro k x h
    rw [wb_match_triples, List.mem_append] at h
    rcases h with h | h
    · rcases List.mem_map.mp h with ⟨e, _, heq⟩
      rw [← heq]
    · exact Nat.le_trans (Nat.le_succ k) (ih (k + 1) x h)

theorem pairwise_le_of_const (k : Nat) :
    ∀ l : List (Nat × Nat × Nat), (∀ x ∈ l, x.1 = k) →
      l.Pairwise (fun a b => a.1 ≤ b.1) := by
  intro l
  induction l with
  | nil => intro _; exact List.Pairwise.nil
  | cons y ys ih =>
    intro h
    refine List.Pairwise.cons ?_ (ih (fun x hx => h x (List.mem_cons_of_mem y hx)))
    intro z hz
    rw [h y (List.mem_cons_self y ys), h z (List.mem_cons_of_mem y hz)]

theorem wb_match_triples_pairwise (needle : List Char) :
    ∀ (sheets : List Worksheet) (k : Nat),
      (wb_match_triples needle sheets k).Pairwise (fun a b => a.1 ≤ b.1) := by
  intro sheets
  induction sheets with
  | nil => intro k; exact List.Pairwise.nil
  | cons ws rest ih =>
    intro k
    rw [wb_match_triples, List.pairwise_append]
    refine ⟨?_, ih (k + 1), ?_⟩
    · apply pairwise_le_of_const k
      intro x hx
      rcases List.mem_map.mp hx with ⟨e, _, heq⟩
      rw [← heq]
    · intro a ha b hb
      rcases List.mem_map.mp ha with ⟨e, _, heq⟩
      have hb1 := wb_match_triples_ge needle rest (k + 1) b hb
      rw [← heq]
      omega

theorem best_fold_spec :
    ∀ (L : List (Nat × Nat × Nat)) (t : Nat × Nat × Nat),
      (∀ x ∈ L, t.1 ≤ x.1) → L.Pairwise (fun a b => a.1 ≤ b.1) →
      ∃ u, L.foldl best_step (some t) = some u ∧ (u = t ∨ u ∈ L) ∧
        (u = t ∨ u.2.1 < t.2.1 ∨ (u.2.1 = t.2.1 ∧ u.2.2 < t.2.2)) ∧
        (∀ x ∈ L, u.2.1 < x.2.1 ∨ (u.2.1 = x.2.1 ∧ u.2.2 < x.2.2) ∨
          (u.2.1 = x.2.1 ∧ u.2.2 = x.2.2 ∧ u.1 ≤ x.1)) := by
  intro L
  induction L with
  | nil =>
    intro t _ _
    exact ⟨t, rfl, Or.inl rfl, Or.inl rfl, by intro x hx; cases hx⟩
  | cons x L2 ih =>
    intro t hidx hpw
    obtain ⟨xi, xr, xc⟩ := x
    obtain ⟨ti, tr, tc⟩ := t
    rw [List.foldl_cons]
    rcases List.pairwise_cons.mp hpw with ⟨hxle, hpw2⟩
    by_cases hlt : xr < tr ∨ (xr = tr ∧ xc < tc)
    · have hstep : best_step (some (ti, tr, tc)) (xi, xr, xc) = some (xi, xr, xc) := by
        simp only [best_step, update_best]
        rw [if_pos hlt]
      rw [hstep]
      rcases ih (xi, xr, xc) (fun y hy => hxle y hy) hpw2 with ⟨u, hu1, hu2, hu3, hu4⟩
      obtain ⟨ui, ur, uc⟩ := u
      refine ⟨(ui, ur, uc), hu1, ?_, ?_, ?_⟩
      · rcases hu2 with h | h
        · rw [h]
          exact Or.inr (List.mem_cons_self _ _)
        · exact Or.inr (List.mem_cons_of_mem _ h)
      · right
        rcases hu3 with h | h
        · have hco : ui = xi ∧ ur = xr ∧ uc = xc := by
            simpa [Prod.ext_iff] using h
          dsimp only
          omega
        · dsimp only at h ⊢
          omega
      · intro y hy
        rcases List.mem_cons.mp hy with rfl | hy2
        · rcases hu3 with h | h
          · have hco : ui = xi ∧ ur = xr ∧ uc = xc := by
              simpa [Prod.ext_iff] using h
            dsimp only
            omega
          · dsimp only at h ⊢
            omega
        · exact hu4 y hy2
    · have hstep : best_step (some (ti, tr, tc)) (xi, xr, xc) = some (ti, tr, tc) := by
        simp only [best_step, update_best]
        rw [if_neg hlt]
      rw [hstep]
      rcases ih (ti, tr, tc)
        (fun y hy => hidx y (List.mem_cons_of_mem _ hy)) hpw2 with ⟨u, hu1, hu2, hu3, hu4⟩
      obtain ⟨ui, ur, uc⟩ := u
      refine ⟨(ui, ur, uc), hu1, ?_, hu3, ?_⟩
      · rcases hu2 with h | h
        · exact Or.inl h
        · exact Or.inr (List.mem_cons_of_mem _ h)
      · intro y hy
        rcases List.mem_cons.mp hy with rfl | hy2
        · have hxidx : ti ≤ xi := hidx (xi, xr, xc) (List.mem_cons_self _ _)
          rcases hu3 with h | h
          · have hco : ui = ti ∧ ur = tr ∧ uc = tc := by
              simpa [Prod.ext_iff] using h
            dsimp only
            omega
          · dsimp only at h ⊢
            omega
        · exact hu4 y hy2

/-- C10: the uppermost-match search returns `none` exactly when no cell of
any sheet contains the needle case-insensitively; and when it returns a
triple (sheet, row, column), that cell is a match and every match in the
workbook is strictly lower, or on the same row strictly to the right, or
at the same (row, column) on the same-or-later sheet in workbook order. -/
theorem c10_uppermost_match_spec (wb : List Worksheet) (needle : List Char) :
    (find_uppermost_match_across_workbook wb needle = none ↔
      ∀ j r c, ¬MatchAt wb needle j r c) ∧
    (∀ i r c, find_uppermost_match_across_workbook wb needle = some (i, r, c) →
      MatchAt wb needle i r c ∧
      ∀ j r2 c2, MatchAt wb needle j r2 c2 →
        r < r2 ∨ (r = r2 ∧ c < c2) ∨ (r = r2 ∧ c = c2 ∧ i ≤ j)) := by
  have hflat : find_uppermost_match_across_workbook wb needle
      = (wb_match_triples needle wb 0).foldl best_step none :=
    find_uppermost_aux_flat needle wb 0 none
  have hmem : ∀ j r c, ((j, r, c) ∈ wb_match_triples needle wb 0 ↔ MatchAt wb needle j r c) := by
    intro j r c
    rw [wb_match_triples_mem needle wb 0 j r c]
    simp
  constructor
  · rw [hflat, foldl_best_none_iff]
    constructor
    · rintro ⟨_, hnil⟩ j r c hm
      have : (j, r, c) ∈ wb_match_triples needle wb 0 := (hmem j r c).mpr hm
      rw [hnil] at this
      cases this
    · intro hno
      refine ⟨rfl, ?_⟩
      rcases hL : wb_match_triples needle wb 0 with _ | ⟨y, L2⟩
      · rfl
      · obtain ⟨yi, yr, yc⟩ := y
        have : (yi, yr, yc) ∈ wb_match_triples needle wb 0 := by
          rw [hL]
          exact List.mem_cons_self _ _
        exact absurd ((hmem yi yr yc).mp this) (hno yi yr yc)
  · intro i r c heq
    rw [hflat] at heq
    rcases hL : wb_match_triples needle wb 0 with _ | ⟨y, L2⟩
    · rw [hL] at heq
      cases heq
    · rw [hL, List.foldl_cons] at heq
      obtain ⟨yi, yr, yc⟩ := y
      have hstep : best_step none (yi, yr, yc) = some (yi, yr, yc) := rfl
      rw [hstep] at heq
      have hpwL : (wb_match_triples needle wb 0).Pairwise (fun a b => a.1 ≤ b.1) :=
        wb_match_triples_pairwise needle wb 0
      rw [hL] at hpwL
      rcases List.pairwise_cons.mp hpwL with ⟨hyle, hpw2⟩
      rcases best_fold_spec L2 (yi, yr, yc) (fun z hz => hyle z hz) hpw2
        with ⟨u, hu1, hu2, hu3, hu4⟩
      rw [hu1] at heq
      injection heq with heq2
      subst heq2
      have humem : (i, r, c) ∈ wb_match_triples needle wb 0 := by
        rw [hL]
        rcases hu2 with h | h
        · rw [h]
          exact List.mem_cons_self _ _
        · exact List.mem_cons_of_mem _ h
      refine ⟨(hmem i r c).mp humem, ?_⟩
      intro j r2 c2 hm2
      have hm2mem : (j, r2, c2) ∈ wb_match_triples needle wb 0 := (hmem j r2 c2).mpr hm2
      rw [hL] at hm2mem
      rcases List.mem_cons.mp hm2mem with hx | hx
      · have hco : j = yi ∧ r2 = yr ∧ c2 = yc := by
          simpa [Prod.ext_iff] using hx
        obtain ⟨rfl, rfl, rfl⟩ := hco
        rcases hu3 with h | h
        · have hco2 : i = j ∧ r = r2 ∧ c = c2 := by
            simpa [Prod.ext_iff] using h
          omega
        · dsimp only at h
          omega
      · have := hu4 (j, r2, c2) hx
        dsimp only at this
        omega

/-- C10 witness: the characterization applied to the concrete two-sheet
workbook `c10Workbook`, on which the search returns sheet 1, row 1,
column 5. -/
theorem c10_witness :
    MatchAt c10Workbook fobTok 1 1 5 ∧
    ∀ j r2 c2, MatchAt c10Workbook fobTok j r2 c2 →
      1 < r2 ∨ (1 = r2 ∧ 5 < c2) ∨ (1 = r2 ∧ 5 = c2 ∧ 1 ≤ j) :=
  (c10_uppermost_match_spec c10Workbook fobTok).2 1 1 5 (by decide)
